import Mathlib

/-!
Verification of the waffle-chart core algorithms
(`src/Clients/CustomVisuals/visuals/waffleChart/waffleChart.ts`).

The TypeScript source is shallowly embedded: JavaScript numbers are
modelled as exact rationals (`ℚ`), with an explicit `JSNum` type adding
the non-finite values (`NaN`, `±Infinity`) and `undefined` where the
aggregation code can produce them; in-place array mutation becomes
functional update; loops become folds.  Definitions follow the source
line by line and keep its names.
-/

namespace WaffleChart

/-- `IViewport`: a width/height pair, as used throughout the source. -/
structure IViewport where
  width : ℚ
  height : ℚ
deriving DecidableEq

/-- `WaffleChartLayout` (waffleChart.ts lines 31–35). -/
structure WaffleChartLayout where
  rows : ℕ
  columns : ℕ
  totalArea : ℚ
deriving DecidableEq

/-- `WaffleChart.getWaffleSize` (lines 530–547): fit a 600:800 tile into a cell. -/
def getWaffleSize (viewport : IViewport) : IViewport :=
  if viewport.width * 800 / 600 ≤ viewport.height then
    { width := viewport.width, height := viewport.width * 800 / 600 }
  else
    { width := viewport.height * 600 / 800, height := viewport.height }

/-- `WaffleChart.calculateArea` (lines 515–528). -/
def calculateArea (viewport : IViewport) (count rows columns : ℕ) : WaffleChartLayout :=
  let waffleViewport : IViewport :=
    getWaffleSize { width := viewport.width / (columns : ℚ), height := viewport.height / (rows : ℚ) }
  { rows := rows, columns := columns
    totalArea := waffleViewport.width * waffleViewport.height * (count : ℚ) }

/-- Body of the inner loop of `WaffleChart.getBestLayout` (lines 501–510):
replace the best layout when the candidate `(i, j)` is admissible and has
strictly larger total area. -/
def layoutStep (viewport : IViewport) (count i : ℕ) (bestLayout : WaffleChartLayout)
    (j : ℕ) : WaffleChartLayout :=
  if count ≤ i * j then
    if bestLayout.totalArea < (calculateArea viewport count i j).totalArea then
      calculateArea viewport count i j
    else bestLayout
  else bestLayout

/-- One pass of the outer loop of `getBestLayout` at row count `i0 + 1`:
the inner loop runs `j` over `1, …, count`. -/
def layoutRow (viewport : IViewport) (count : ℕ) (bestLayout : WaffleChartLayout)
    (i0 : ℕ) : WaffleChartLayout :=
  (List.range count).foldl (fun best j0 => layoutStep viewport count (i0 + 1) best (j0 + 1))
    bestLayout

/-- `WaffleChart.getBestLayout` (lines 493–513): exhaustive search over
`rows ∈ [1, count]`, `columns ∈ [1, count]` starting from the sentinel
`{rows: 0, columns: 0, totalArea: 0}`. -/
def getBestLayout (viewport : IViewport) (count : ℕ) : WaffleChartLayout :=
  (List.range count).foldl (layoutRow viewport count)
    { rows := 0, columns := 0, totalArea := 0 }

/-! ### Path-label sanitization (`WaffleChart.sanitizePathD`, lines 475–482) -/

/-- The character class of the regex `/[bdfgijknopruwxy]+/gi` in
`sanitizePathD`: the fifteen letters together with, because of the `i` flag,
their uppercase forms. -/
def invalidPathChars : List Char :=
  ['b', 'd', 'f', 'g', 'i', 'j', 'k', 'n', 'o', 'p', 'r', 'u', 'w', 'x', 'y',
   'B', 'D', 'F', 'G', 'I', 'J', 'K', 'N', 'O', 'P', 'R', 'U', 'W', 'X', 'Y']

/-- `WaffleChart.sanitizePathD` (lines 475–482): return `null` (here `none`)
when the label contains a character matched by `/[bdfgijknopruwxy]+/gi`,
otherwise return the label unchanged. -/
def sanitizePathD (pathD : String) : Option String :=
  if pathD.data.any (fun c => invalidPathChars.contains c) then none else some pathD

/-- The spec's fixed disallow-set `b d f g i j k n o p r u w x y`, lowercase. -/
def disallowedLower : List Char :=
  ['b', 'd', 'f', 'g', 'i', 'j', 'k', 'n', 'o', 'p', 'r', 'u', 'w', 'x', 'y']

/-- The uppercase forms of the spec's disallow-set (its case-insensitivity). -/
def disallowedUpper : List Char :=
  ['B', 'D', 'F', 'G', 'I', 'J', 'K', 'N', 'O', 'P', 'R', 'U', 'W', 'X', 'Y']

/-! ### The 10×10 glyph fill mask (`SingleWaffleChart.update`, lines 724–744) -/

/-- Fill decisions for one row of 10 glyphs: each glyph tests the running
counter with `percentage-- > 0` (filled iff the counter is still positive when
the glyph is visited, the counter decrementing at every glyph). -/
def fillCells : ℕ → ℤ → List Bool
  | 0, _ => []
  | n + 1, p => decide (0 < p) :: fillCells n (p - 1)

/-- The rows in visit order: the source loop runs `i` from 9 down to 0, so the
first visited row is the bottom one; each row consumes 10 counter decrements. -/
def fillRows : ℕ → ℤ → List (List Bool)
  | 0, _ => []
  | n + 1, p => fillCells 10 p :: fillRows n (p - 10)

/-- The fill mask indexed like `dotArray[i][j]` (row `i = 0` on top): the loop
of `SingleWaffleChart.update` fills rows bottom-up, so display order is the
reverse of visit order. -/
def fillPattern (percent : ℤ) : List (List Bool) :=
  (fillRows 10 percent).reverse


/-! ### JavaScript numbers, as the aggregator can observe them

`WaffleChart.converter` works on JavaScript numbers and arrays.  Finite values
are modelled as exact rationals; the non-finite values `NaN`, `±Infinity` and
the `undefined` of array holes / out-of-range reads are explicit constructors,
with IEEE-754 arithmetic on them. -/

inductive JSNum where
  | num : ℚ → JSNum
  | posInf : JSNum
  | negInf : JSNum
  | nan : JSNum
  | undef : JSNum
deriving DecidableEq

namespace JSNum

/-- JavaScript truthiness of a numeric value: `0`, `NaN`, `undefined` are falsy. -/
def truthy : JSNum → Bool
  | num q => if q = 0 then false else true
  | posInf => true
  | negInf => true
  | nan => false
  | undef => false

/-- The `ToNumber` coercion applied by arithmetic: `undefined` becomes `NaN`. -/
def toNumeric : JSNum → JSNum
  | num q => num q
  | posInf => posInf
  | negInf => negInf
  | nan => nan
  | undef => nan

/-- JavaScript `+` on numbers. -/
def add (a b : JSNum) : JSNum :=
  match a.toNumeric, b.toNumeric with
  | num x, num y => num (x + y)
  | num _, posInf => posInf
  | num _, negInf => negInf
  | posInf, num _ => posInf
  | negInf, num _ => negInf
  | posInf, posInf => posInf
  | negInf, negInf => negInf
  | _, _ => nan

/-- JavaScript `-` on numbers. -/
def sub (a b : JSNum) : JSNum :=
  match a.toNumeric, b.toNumeric with
  | num x, num y => num (x - y)
  | num _, posInf => negInf
  | num _, negInf => posInf
  | posInf, num _ => posInf
  | negInf, num _ => negInf
  | posInf, negInf => posInf
  | negInf, posInf => negInf
  | _, _ => nan

/-- JavaScript `*` on numbers. -/
def mul (a b : JSNum) : JSNum :=
  match a.toNumeric, b.toNumeric with
  | num x, num y => num (x * y)
  | num x, posInf => if 0 < x then posInf else if x < 0 then negInf else nan
  | num x, negInf => if 0 < x then negInf else if x < 0 then posInf else nan
  | posInf, num y => if 0 < y then posInf else if y < 0 then negInf else nan
  | negInf, num y => if 0 < y then negInf else if y < 0 then posInf else nan
  | posInf, posInf => posInf
  | negInf, negInf => posInf
  | posInf, negInf => negInf
  | negInf, posInf => negInf
  | _, _ => nan

/-- JavaScript `/` on numbers: a zero divisor yields `±Infinity` (or `NaN` for
`0 / 0`), never an error. -/
def div (a b : JSNum) : JSNum :=
  match a.toNumeric, b.toNumeric with
  | num x, num y =>
      if y = 0 then (if 0 < x then posInf else if x < 0 then negInf else nan)
      else num (x / y)
  | num _, posInf => num 0
  | num _, negInf => num 0
  | posInf, num y => if 0 ≤ y then posInf else negInf
  | negInf, num y => if 0 ≤ y then negInf else posInf
  | _, _ => nan

/-- Binary `Math.max`. -/
def max (a b : JSNum) : JSNum :=
  match a.toNumeric, b.toNumeric with
  | num x, num y => num (Max.max x y)
  | num _, posInf => posInf
  | posInf, num _ => posInf
  | num x, negInf => num x
  | negInf, num y => num y
  | posInf, posInf => posInf
  | posInf, negInf => posInf
  | negInf, posInf => posInf
  | negInf, negInf => negInf
  | _, _ => nan

/-- JavaScript `>` on numbers: any comparison involving `NaN` is false. -/
def gt (a b : JSNum) : Bool :=
  match a.toNumeric, b.toNumeric with
  | num x, num y => if y < x then true else false
  | num _, posInf => false
  | num _, negInf => true
  | posInf, num _ => true
  | negInf, num _ => false
  | posInf, posInf => false
  | negInf, negInf => false
  | posInf, negInf => true
  | negInf, posInf => false
  | _, _ => false

/-- Whether the value is an ordinary (finite) number. -/
def isFinite : JSNum → Bool
  | num _ => true
  | _ => false

end JSNum

/-- `Math.round`, which maps the non-finite values to themselves (`NaN` for
`NaN`/`undefined`): JavaScript rounds half-up, as does Mathlib's `round`. -/
def jsRound : JSNum → JSNum
  | .num q => .num ((round q : ℤ) : ℚ)
  | .posInf => .posInf
  | .negInf => .negInf
  | .nan => .nan
  | .undef => .nan

/-- `Math.max.apply(null, totals)`: fold of binary `Math.max`, starting from
`Math.max()`'s result `-Infinity`. -/
def jsMaxList (l : List JSNum) : JSNum := l.foldl JSNum.max JSNum.negInf

/-- The JavaScript array write `l[i] = v`: extend with holes (the given `fill`)
when `i` is past the end. -/
def jsSetList {α : Type} (fill : α) (l : List α) (i : ℕ) (v : α) : List α :=
  if i < l.length then l.set i v
  else l ++ List.replicate (i - l.length) fill ++ [v]

/-! ### The aggregator (`WaffleChart.converter`, lines 191–348) -/

/-- `WaffleChart.sumValues` (lines 484–491): for each index of `localValues`
holding a truthy value, set `paths[i]` to the current path label and add the
value into `totals[i]` (both JavaScript array writes, which can grow the
arrays when a series is longer than the first one). -/
def sumValues (totals : List JSNum) (localValues : List JSNum)
    (paths : List (Option String)) (currentPath : Option String) :
    List JSNum × List (Option String) :=
  (List.range localValues.length).foldl
    (fun st i =>
      if (localValues.getD i .undef).truthy then
        (jsSetList .undef st.1 i ((st.1.getD i .undef).add (localValues.getD i .undef)),
         jsSetList none st.2 i currentPath)
      else st)
    (totals, paths)

/-- One column of `dataView.categorical.values` with the roles its source
carries (the `DataRoleHelper.hasRole` checks of lines 257–275). -/
structure ValueColumn where
  values : List JSNum
  roleValues : Bool
  roleMinValue : Bool
  roleMaxValue : Bool

/-- The mutable locals of the column loop of `converter` (lines 228–281). -/
structure ConvState where
  totals : Option (List JSNum)
  paths : Option (List (Option String))
  minValues : Option (List JSNum)
  maxValues : Option (List JSNum)
  currentPathIndex : ℕ

/-- The body of the column loop of `converter` (lines 252–281): a "Values"-role
column allocates `totals` (zero-filled) and `paths` on first sight, sums into
them under the current group's sanitized path label, and advances the path
index; "MinValue"/"MaxValue" columns are captured whole (last one wins); other
columns are only logged. -/
def processColumn (pathsGroups : List (Option String)) (st : ConvState)
    (c : ValueColumn) : ConvState :=
  if c.roleValues then
    let totals0 := match st.totals with
      | some t => t
      | none => List.replicate c.values.length (JSNum.num 0)
    let paths0 := match st.totals with
      | some _ => st.paths.getD []
      | none => List.replicate c.values.length none
    let sp := sumValues totals0 c.values paths0 (pathsGroups.getD st.currentPathIndex none)
    { totals := some sp.1, paths := some sp.2, minValues := st.minValues,
      maxValues := st.maxValues, currentPathIndex := st.currentPathIndex + 1 }
  else if c.roleMinValue then
    { st with minValues := some c.values }
  else if c.roleMaxValue then
    { st with maxValues := some c.values }
  else st

/-- Lines 289–301 of `converter`: determine `count`; when neither category
labels nor totals exist it stays `undefined` (here `none`) and only a message
is logged. -/
def computeCount (labelsArray : Option (List String))
    (totals : Option (List JSNum)) : Option ℕ :=
  match labelsArray, totals with
  | some l, some t => some (Max.max l.length t.length)
  | some l, none => some l.length
  | none, some t => some t.length
  | none, none => none

/-- The in-place update loop shared by both normalization branches of
`converter`: `totals[i] = g i totals[i]` for `i` over the original length. -/
def normalizeLoop (g : ℕ → JSNum → JSNum) (totals : List JSNum) : List JSNum :=
  (List.range totals.length).foldl
    (fun t i => jsSetList .undef t i (g i (t.getD i .undef))) totals

/-- The per-index update of the explicit-bounds branch (lines 319–328):
`localMinValue` is `minValues[i]` when `minValues` exists and the entry is
truthy, else `0`; the entry becomes
`Math.round((totals[i] - localMinValue) * 100 / (localMaxValue - localMinValue))`
with no guard against a zero range. -/
def boundsNormalize (minValues : Option (List JSNum)) (maxVs : List JSNum)
    (i : ℕ) (v : JSNum) : JSNum :=
  let localMaxValue := maxVs.getD i .undef
  let localMinValue :=
    match minValues with
    | some minVs => if (minVs.getD i .undef).truthy then minVs.getD i .undef else JSNum.num 0
    | none => JSNum.num 0
  jsRound (((v.sub localMinValue).mul (JSNum.num 100)).div (localMaxValue.sub localMinValue))

/-- The per-index update of the rescale branch (lines 329–335):
`Math.round(totals[i] * 100 / maxValue)`. -/
def scaleNormalize (maxValue : JSNum) (_i : ℕ) (v : JSNum) : JSNum :=
  jsRound ((v.mul (JSNum.num 100)).div maxValue)

/-- Lines 311–336 of `converter`: with explicit max bounds, apply `boundsNormalize`
at every index; else if the peak `Math.max.apply(null, totals)` exceeds 100,
rescale against the peak; else leave the totals untouched. -/
def normalizeTotals (totals : List JSNum) (minValues maxValues : Option (List JSNum)) :
    List JSNum :=
  let maxValue := jsMaxList totals
  match maxValues with
  | some maxVs => normalizeLoop (boundsNormalize minValues maxVs) totals
  | none =>
      if maxValue.gt (JSNum.num 100) then normalizeLoop (scaleNormalize maxValue) totals
      else totals

/-- The first category column (`categorical.categories[0]`): labels (after the
optional date reformatting of lines 213–226, which changes only the text of
each label, never the count) and the identity array; identities are opaque. -/
structure CategoryColumn where
  labels : List String
  identity : List ℕ

/-- `dataView.categorical.values` together with its `grouped()` series names,
present only when the guard of line 233 holds. -/
structure CategoricalValues where
  groupNames : List String
  columns : List ValueColumn

/-- The input of `WaffleChart.converter` as the function observes it. -/
structure DataViewInput where
  categories : Option CategoryColumn
  valuesBlock : Option CategoricalValues

/-- `WaffleChartViewModel` (lines 37–44); the pass-through `objects` array is
rendering-owned styling and is left out. -/
structure WaffleChartViewModel where
  count : Option ℕ
  labelsArray : Option (List String)
  identities : Option (List ℕ)
  values : List JSNum
  paths : Option (List (Option String))

/-- `WaffleChart.converter` (lines 191–348): copy labels/identities from the
first category column, process the value columns, determine `count`,
synthesize all-zero totals when no "Values" column appeared, and normalize. -/
def converter (dataView : DataViewInput) : WaffleChartViewModel :=
  let labelsArray := dataView.categories.map (fun c => c.labels)
  let idents := dataView.categories.map (fun c => c.identity)
  let st :=
    match dataView.valuesBlock with
    | none => ConvState.mk none none none none 0
    | some vb =>
        vb.columns.foldl (processColumn (vb.groupNames.map (fun n => sanitizePathD n)))
          (ConvState.mk none none none none 0)
  let count := computeCount labelsArray st.totals
  let totals :=
    match st.totals with
    | some t => t
    | none => List.replicate (count.getD 0) (JSNum.num 0)
  { count := count, labelsArray := labelsArray, identities := idents,
    values := normalizeTotals totals st.minValues st.maxValues, paths := st.paths }

/-- The first `n` iterations of the `normalizeLoop` update loop (for reasoning
by induction on the loop counter; `normalizeLoop g t = normalizeLoopN g t.length t`). -/
def normalizeLoopN (g : ℕ → JSNum → JSNum) (n : ℕ) (totals : List JSNum) : List JSNum :=
  (List.range n).foldl
    (fun t i => jsSetList .undef t i (g i (t.getD i .undef))) totals

/-- A concrete converter input: category labels with identities, one series
group, and a single "Values"-role column. -/
def singleSeriesInput (labels : List String) (ids : List ℕ) (g : String)
    (vs : List ℚ) : DataViewInput :=
  { categories := some { labels := labels, identity := ids },
    valuesBlock := some { groupNames := [g], columns :=
      [{ values := vs.map JSNum.num, roleValues := true,
         roleMinValue := false, roleMaxValue := false }] } }



lemma layoutStep_totalArea_le (v : IViewport) (c i : ℕ) (b : WaffleChartLayout) (j : ℕ) :
    b.totalArea ≤ (layoutStep v c i b j).totalArea := by
  unfold layoutStep
  split_ifs with h1 h2
  · exact le_of_lt h2
  · exact le_refl _
  · exact le_refl _

lemma layoutStep_covers (v : IViewport) (c i : ℕ) (b : WaffleChartLayout) (j : ℕ)
    (hb : 0 < b.totalArea → c ≤ b.rows * b.columns) :
    0 < (layoutStep v c i b j).totalArea →
      c ≤ (layoutStep v c i b j).rows * (layoutStep v c i b j).columns := by
  unfold layoutStep
  split_ifs with h1 h2
  · intro _
    simpa [calculateArea] using h1
  · exact hb
  · exact hb

lemma foldl_totalArea_mono (f : WaffleChartLayout → ℕ → WaffleChartLayout)
    (hf : ∀ b x, b.totalArea ≤ (f b x).totalArea) :
    ∀ (l : List ℕ) (b : WaffleChartLayout), b.totalArea ≤ (l.foldl f b).totalArea := by
  intro l
  induction l with
  | nil => intro b; exact le_refl _
  | cons y t ih => intro b; exact le_trans (hf b y) (ih (f b y))

lemma foldl_pres {P : WaffleChartLayout → Prop} (f : WaffleChartLayout → ℕ → WaffleChartLayout)
    (hf : ∀ b x, P b → P (f b x)) :
    ∀ (l : List ℕ) (b : WaffleChartLayout), P b → P (l.foldl f b) := by
  intro l
  induction l with
  | nil => intro b hb; exact hb
  | cons y t ih => intro b hb; exact ih (f b y) (hf b y hb)

lemma foldl_totalArea_pos (f : WaffleChartLayout → ℕ → WaffleChartLayout)
    (hmono : ∀ b x, b.totalArea ≤ (f b x).totalArea) (x : ℕ)
    (hforce : ∀ b, 0 < (f b x).totalArea) :
    ∀ (l : List ℕ), x ∈ l → ∀ b, 0 < (l.foldl f b).totalArea := by
  intro l
  induction l with
  | nil => intro hx; exact absurd hx (List.not_mem_nil x)
  | cons y t ih =>
      intro hx b
      rcases List.mem_cons.mp hx with h | h
      · subst h
        exact lt_of_lt_of_le (hforce b) (foldl_totalArea_mono f hmono t (f b x))
      · exact ih h (f b y)

lemma getWaffleSize_pos (w h : ℚ) (hw : 0 < w) (hh : 0 < h) :
    0 < (getWaffleSize ⟨w, h⟩).width ∧ 0 < (getWaffleSize ⟨w, h⟩).height := by
  unfold getWaffleSize
  split_ifs with hc
  · exact ⟨hw, by positivity⟩
  · exact ⟨by positivity, hh⟩

lemma calculateArea_pos (v : IViewport) (c i j : ℕ) (hw : 0 < v.width) (hh : 0 < v.height)
    (hc : 0 < c) (hi : 0 < i) (hj : 0 < j) : 0 < (calculateArea v c i j).totalArea := by
  have h1 : 0 < v.width / (j : ℚ) := div_pos hw (by exact_mod_cast hj)
  have h2 : 0 < v.height / (i : ℚ) := div_pos hh (by exact_mod_cast hi)
  obtain ⟨p1, p2⟩ := getWaffleSize_pos (v.width / (j : ℚ)) (v.height / (i : ℚ)) h1 h2
  have hc' : (0 : ℚ) < (c : ℚ) := by exact_mod_cast hc
  simpa [calculateArea] using mul_pos (mul_pos p1 p2) hc'

lemma layoutStep_force (v : IViewport) (c : ℕ) (hw : 0 < v.width) (hh : 0 < v.height)
    (hc : 0 < c) (b : WaffleChartLayout) : 0 < (layoutStep v c 1 b c).totalArea := by
  unfold layoutStep
  rw [if_pos (by omega : c ≤ 1 * c)]
  have hpos := calculateArea_pos v c 1 c hw hh hc one_pos hc
  split_ifs with h
  · exact hpos
  · exact lt_of_lt_of_le hpos (not_lt.mp h)

lemma layoutRow_force (v : IViewport) (c : ℕ) (hw : 0 < v.width) (hh : 0 < v.height)
    (hc : 0 < c) (b : WaffleChartLayout) : 0 < (layoutRow v c b 0).totalArea := by
  unfold layoutRow
  refine foldl_totalArea_pos _ (fun b' j0 => layoutStep_totalArea_le v c (0 + 1) b' (j0 + 1))
    (c - 1) (fun b' => ?_) (List.range c) (List.mem_range.mpr (by omega)) b
  have hcc : c - 1 + 1 = c := by omega
  rw [hcc]
  exact layoutStep_force v c hw hh hc b'

/-- Claim C1: for every `itemCount > 0` and every viewport with positive width and
positive height, the layout returned by `getBestLayout` satisfies
`rows * columns ≥ itemCount`. -/
theorem getBestLayout_covers (v : IViewport) (count : ℕ) (hc : 0 < count)
    (hw : 0 < v.width) (hh : 0 < v.height) :
    count ≤ (getBestLayout v count).rows * (getBestLayout v count).columns := by
  unfold getBestLayout
  have hmono : ∀ b x, b.totalArea ≤ (layoutRow v count b x).totalArea := by
    intro b x
    exact foldl_totalArea_mono _ (fun b' j0 => layoutStep_totalArea_le v count (x + 1) b' (j0 + 1))
      (List.range count) b
  have hpres : ∀ b x, (0 < b.totalArea → count ≤ b.rows * b.columns) →
      0 < (layoutRow v count b x).totalArea →
        count ≤ (layoutRow v count b x).rows * (layoutRow v count b x).columns := by
    intro b x hb
    exact foldl_pres (P := fun b => 0 < b.totalArea → count ≤ b.rows * b.columns) _
      (fun b' j0 hb' => layoutStep_covers v count (x + 1) b' (j0 + 1) hb') (List.range count) b hb
  have hpos : 0 < ((List.range count).foldl (layoutRow v count)
      { rows := 0, columns := 0, totalArea := 0 }).totalArea := by
    refine foldl_totalArea_pos (layoutRow v count) hmono 0 (fun b => ?_) (List.range count)
      (List.mem_range.mpr hc) _
    exact layoutRow_force v count hw hh hc b
  exact foldl_pres (P := fun b => 0 < b.totalArea → count ≤ b.rows * b.columns)
    (layoutRow v count) hpres (List.range count) _ (by intro h; exact absurd h (by norm_num)) hpos

/-- Witness for C1 at `viewport = 1000 × 500`, `itemCount = 5`. -/
theorem getBestLayout_covers_witness :
    5 ≤ (getBestLayout ⟨1000, 500⟩ 5).rows * (getBestLayout ⟨1000, 500⟩ 5).columns :=
  getBestLayout_covers ⟨1000, 500⟩ 5 (by norm_num) (by norm_num) (by norm_num)

/-- Claim C6: for every cell with positive width `w` and height `h`,
`getWaffleSize` (the spec's `fitTile`) returns a tile no larger than the cell
in either dimension, with width-to-height ratio exactly `600/800`; it is
width-bound `{width: w, height: w·800/600}` exactly when `w·800/600 ≤ h`, and
height-bound `{width: h·600/800, height: h}` otherwise. -/
theorem getWaffleSize_fits_and_aspect (w h : ℚ) (hw : 0 < w) (hh : 0 < h) :
    (getWaffleSize ⟨w, h⟩).width ≤ w ∧
    (getWaffleSize ⟨w, h⟩).height ≤ h ∧
    (getWaffleSize ⟨w, h⟩).width / (getWaffleSize ⟨w, h⟩).height = 600 / 800 ∧
    (w * 800 / 600 ≤ h → getWaffleSize ⟨w, h⟩ = ⟨w, w * 800 / 600⟩) ∧
    (¬ w * 800 / 600 ≤ h → getWaffleSize ⟨w, h⟩ = ⟨h * 600 / 800, h⟩) := by
  unfold getWaffleSize
  split_ifs with hc
  · refine ⟨le_refl w, hc, ?_, fun _ => rfl, fun hn => absurd hc hn⟩
    have hw' : w ≠ 0 := ne_of_gt hw
    field_simp
    ring
  · push_neg at hc
    refine ⟨?_, le_refl h, ?_, fun hy => absurd hy (not_le.mpr hc), fun _ => rfl⟩
    · nlinarith
    · have hh' : h ≠ 0 := ne_of_gt hh
      field_simp
      ring

/-- Witness for C6 at the cell `150 × 100` (height-bound) — instantiating the
theorem at one concrete positive cell. -/
theorem getWaffleSize_fits_and_aspect_witness :
    (getWaffleSize ⟨150, 100⟩).width ≤ 150 ∧
    (getWaffleSize ⟨150, 100⟩).height ≤ 100 ∧
    (getWaffleSize ⟨150, 100⟩).width / (getWaffleSize ⟨150, 100⟩).height = 600 / 800 ∧
    ((150 : ℚ) * 800 / 600 ≤ 100 → getWaffleSize ⟨150, 100⟩ = ⟨150, 150 * 800 / 600⟩) ∧
    (¬ (150 : ℚ) * 800 / 600 ≤ 100 → getWaffleSize ⟨150, 100⟩ = ⟨100 * 600 / 800, 100⟩) :=
  getWaffleSize_fits_and_aspect 150 100 (by norm_num) (by norm_num)

lemma calculateArea_degenerate (v : IViewport) (c i j : ℕ) (hw : 0 ≤ v.width)
    (hh : 0 ≤ v.height) (hz : v.width = 0 ∨ v.height = 0) :
    (calculateArea v c i j).totalArea = 0 := by
  rcases hz with h | h
  · have hy : (0 : ℚ) ≤ v.height / (i : ℚ) := div_nonneg hh (Nat.cast_nonneg i)
    simp [calculateArea, getWaffleSize, h, hy]
  · have hx : (0 : ℚ) ≤ v.width / (j : ℚ) := div_nonneg hw (Nat.cast_nonneg j)
    unfold calculateArea getWaffleSize
    simp only [h, zero_div]
    split_ifs with hcond
    · have h0 : v.width / (j : ℚ) * 800 / 600 = 0 := le_antisymm hcond (by positivity)
      have h0' : v.width / (j : ℚ) = 0 := by linarith
      simp [h0, h0']
    · simp

lemma layoutStep_degenerate (v : IViewport) (c i j : ℕ) (hw : 0 ≤ v.width)
    (hh : 0 ≤ v.height) (hz : v.width = 0 ∨ v.height = 0) :
    layoutStep v c i { rows := 0, columns := 0, totalArea := 0 } j =
      { rows := 0, columns := 0, totalArea := 0 } := by
  unfold layoutStep
  split_ifs with h1 h2
  · exact absurd h2 (by simp [calculateArea_degenerate v c i j hw hh hz])
  · rfl
  · rfl

/-- Claim C10: for every `itemCount ≥ 0` and every (non-negative) viewport whose
width or height is zero, `getBestLayout` returns exactly the initial sentinel
`{rows: 0, columns: 0, totalArea: 0}` (every candidate has tile area 0 and only
strictly larger areas replace the best); hence for `itemCount > 0` such a plan
violates `rows * columns ≥ itemCount`. -/
theorem getBestLayout_degenerate (v : IViewport) (count : ℕ)
    (hw : 0 ≤ v.width) (hh : 0 ≤ v.height) (hz : v.width = 0 ∨ v.height = 0) :
    getBestLayout v count = { rows := 0, columns := 0, totalArea := 0 } ∧
    (0 < count →
      (getBestLayout v count).rows * (getBestLayout v count).columns < count) := by
  have hmain : getBestLayout v count = { rows := 0, columns := 0, totalArea := 0 } := by
    unfold getBestLayout
    have hrow : ∀ (b : WaffleChartLayout) (x : ℕ),
        b = { rows := 0, columns := 0, totalArea := 0 } →
          layoutRow v count b x = { rows := 0, columns := 0, totalArea := 0 } := by
      intro b x hb
      subst hb
      unfold layoutRow
      exact foldl_pres (P := fun b => b = { rows := 0, columns := 0, totalArea := 0 }) _
        (fun b' j0 hb' => by
          rw [hb']
          exact layoutStep_degenerate v count (x + 1) (j0 + 1) hw hh hz)
        (List.range count) _ rfl
    exact foldl_pres (P := fun b => b = { rows := 0, columns := 0, totalArea := 0 })
      (layoutRow v count) hrow (List.range count) _ rfl
  refine ⟨hmain, fun hcount => ?_⟩
  rw [hmain]
  simpa using hcount

/-- Witness for C10 at `viewport = 0 × 5`, `itemCount = 3`. -/
theorem getBestLayout_degenerate_witness :
    getBestLayout ⟨0, 5⟩ 3 = { rows := 0, columns := 0, totalArea := 0 } ∧
    (0 < 3 →
      (getBestLayout ⟨0, 5⟩ 3).rows * (getBestLayout ⟨0, 5⟩ 3).columns < 3) :=
  getBestLayout_degenerate ⟨0, 5⟩ 3 (by norm_num) (by norm_num) (Or.inl rfl)


lemma invalidPathChars_iff (c : Char) :
    invalidPathChars.contains c = true ↔ (c ∈ disallowedLower ∨ c ∈ disallowedUpper) := by
  have hsplit : invalidPathChars = disallowedLower ++ disallowedUpper := rfl
  rw [List.elem_iff, hsplit, List.mem_append]

/-- Claim C9: sanitization replaces a SeriesGroup label with the null path marker
exactly when it contains at least one character of the disallow-set
`b d f g i j k n o p r u w x y` (case-insensitive), and otherwise returns the
label unchanged; it is a total function (never an error). -/
theorem sanitizePathD_spec (s : String) :
    (sanitizePathD s = none ↔
      ∃ c ∈ s.data, c ∈ disallowedLower ∨ c ∈ disallowedUpper) ∧
    (sanitizePathD s ≠ none → sanitizePathD s = some s) := by
  constructor
  · constructor
    · intro hnone
      unfold sanitizePathD at hnone
      split_ifs at hnone with h
      obtain ⟨c, hc, hinv⟩ := List.any_eq_true.mp h
      exact ⟨c, hc, (invalidPathChars_iff c).mp hinv⟩
    · rintro ⟨c, hc, hd⟩
      unfold sanitizePathD
      rw [if_pos (List.any_eq_true.mpr ⟨c, hc, (invalidPathChars_iff c).mpr hd⟩)]
  · intro hne
    unfold sanitizePathD at hne ⊢
    split_ifs at hne ⊢ with h
    · exact absurd rfl hne
    · rfl

/-- Witness for C9 at the label `"AcemH"` (kept unchanged) — instantiating the
theorem at a concrete string. -/
theorem sanitizePathD_spec_witness :
    (sanitizePathD "AcemH" = none ↔
      ∃ c ∈ ("AcemH" : String).data, c ∈ disallowedLower ∨ c ∈ disallowedUpper) ∧
    (sanitizePathD "AcemH" ≠ none → sanitizePathD "AcemH" = some "AcemH") :=
  sanitizePathD_spec "AcemH"


lemma fillCells_length (n : ℕ) (p : ℤ) : (fillCells n p).length = n := by
  induction n generalizing p with
  | zero => rfl
  | succ n ih => simp [fillCells, ih]

lemma fillRows_length (n : ℕ) (p : ℤ) : (fillRows n p).length = n := by
  induction n generalizing p with
  | zero => rfl
  | succ n ih => simp [fillRows, ih]

lemma fillCells_getD (n : ℕ) (p : ℤ) (k : ℕ) (hk : k < n) :
    (fillCells n p).getD k false = decide (0 < p - (k : ℤ)) := by
  induction n generalizing p k with
  | zero => omega
  | succ n ih =>
      cases k with
      | zero => simp [fillCells]
      | succ k =>
          rw [fillCells, List.getD_cons_succ, ih (p - 1) k (by omega)]
          have harith : p - 1 - (k : ℤ) = p - ((k + 1 : ℕ) : ℤ) := by push_cast; ring
          rw [harith]

lemma fillRows_getD (n : ℕ) (p : ℤ) (r : ℕ) (hr : r < n) :
    (fillRows n p).getD r [] = fillCells 10 (p - 10 * (r : ℤ)) := by
  induction n generalizing p r with
  | zero => omega
  | succ n ih =>
      cases r with
      | zero => simp [fillRows]
      | succ r =>
          rw [fillRows, List.getD_cons_succ, ih (p - 10) r (by omega)]
          have harith : p - 10 - 10 * (r : ℤ) = p - 10 * ((r + 1 : ℕ) : ℤ) := by push_cast; ring
          rw [harith]

/-- Claim C7: the 10×10 fill mask fills glyphs bottom-up in row-major order; the
glyph at display position `(i, j)` is filled iff the counter started at
`percent`, having been decremented once per previously visited glyph (there are
`(9 - i) * 10 + j` of them), is still positive; hence `percent = 0` fills no
glyph, `percent = 100` fills all 100, and `percent = 37` fills exactly 37: the
lowest three full rows plus the first 7 cells of the fourth row from the
bottom. -/
theorem fillPattern_spec (p : ℤ) (i j : ℕ) (hi : i < 10) (hj : j < 10) :
    ((fillPattern p).getD i []).getD j false =
      decide (0 < p - (((9 - i) * 10 + j : ℕ) : ℤ)) ∧
    fillPattern 0 = List.replicate 10 (List.replicate 10 false) ∧
    fillPattern 100 = List.replicate 10 (List.replicate 10 true) ∧
    ((fillPattern 37).map fun r => r.count true).sum = 37 ∧
    fillPattern 37 =
      [List.replicate 10 false, List.replicate 10 false, List.replicate 10 false,
       List.replicate 10 false, List.replicate 10 false, List.replicate 10 false,
       [true, true, true, true, true, true, true, false, false, false],
       List.replicate 10 true, List.replicate 10 true, List.replicate 10 true] := by
  refine ⟨?_, by decide, by decide, by decide, by decide⟩
  have hlen : (fillRows 10 p).length = 10 := fillRows_length 10 p
  have hrow : (fillPattern p).getD i [] = fillCells 10 (p - 10 * ((9 - i : ℕ) : ℤ)) := by
    unfold fillPattern
    rw [List.getD_eq_getElem?_getD, List.getElem?_reverse (by rw [hlen]; exact hi),
      ← List.getD_eq_getElem?_getD, hlen]
    have h91 : 10 - 1 - i = 9 - i := by omega
    rw [h91, fillRows_getD 10 p (9 - i) (by omega)]
  rw [hrow, fillCells_getD 10 _ j hj]
  have harith : p - 10 * ((9 - i : ℕ) : ℤ) - (j : ℤ) = p - (((9 - i) * 10 + j : ℕ) : ℤ) := by
    push_cast
    ring
  rw [harith]

/-- Witness for C7 at `percent = 37`, glyph `(6, 6)` (filled, the 37th visited
glyph is at display row 6, column 6). -/
theorem fillPattern_spec_witness :
    ((fillPattern 37).getD 6 []).getD 6 false =
      decide (0 < (37 : ℤ) - (((9 - 6) * 10 + 6 : ℕ) : ℤ)) ∧
    fillPattern 0 = List.replicate 10 (List.replicate 10 false) ∧
    fillPattern 100 = List.replicate 10 (List.replicate 10 true) ∧
    ((fillPattern 37).map fun r => r.count true).sum = 37 ∧
    fillPattern 37 =
      [List.replicate 10 false, List.replicate 10 false, List.replicate 10 false,
       List.replicate 10 false, List.replicate 10 false, List.replicate 10 false,
       [true, true, true, true, true, true, true, false, false, false],
       List.replicate 10 true, List.replicate 10 true, List.replicate 10 true] :=
  fillPattern_spec 37 6 6 (by omega) (by omega)


/-! ### Computation lemmas for the JavaScript number model -/

@[simp] lemma JSNum.add_num (a b : ℚ) :
    (JSNum.num a).add (JSNum.num b) = JSNum.num (a + b) := rfl

@[simp] lemma JSNum.sub_num (a b : ℚ) :
    (JSNum.num a).sub (JSNum.num b) = JSNum.num (a - b) := rfl

@[simp] lemma JSNum.mul_num (a b : ℚ) :
    (JSNum.num a).mul (JSNum.num b) = JSNum.num (a * b) := rfl

lemma JSNum.div_num (a b : ℚ) (hb : b ≠ 0) :
    (JSNum.num a).div (JSNum.num b) = JSNum.num (a / b) := by
  unfold JSNum.div JSNum.toNumeric
  simp [hb]

lemma JSNum.div_num_zero (a : ℚ) :
    (JSNum.num a).div (JSNum.num 0) =
      if 0 < a then JSNum.posInf else if a < 0 then JSNum.negInf else JSNum.nan := by
  unfold JSNum.div JSNum.toNumeric
  simp

@[simp] lemma JSNum.max_num_num (a b : ℚ) :
    (JSNum.num a).max (JSNum.num b) = JSNum.num (Max.max a b) := rfl

@[simp] lemma JSNum.max_negInf_num (a : ℚ) :
    JSNum.negInf.max (JSNum.num a) = JSNum.num a := rfl

@[simp] lemma JSNum.gt_num (a b : ℚ) :
    (JSNum.num a).gt (JSNum.num b) = decide (b < a) := by
  show (if b < a then true else false) = decide (b < a)
  by_cases h : b < a <;> simp [h]

@[simp] lemma JSNum.truthy_num (q : ℚ) :
    (JSNum.num q).truthy = if q = 0 then false else true := rfl

@[simp] lemma JSNum.truthy_undef : JSNum.undef.truthy = false := rfl

@[simp] lemma jsRound_num (q : ℚ) :
    jsRound (JSNum.num q) = JSNum.num ((round q : ℤ) : ℚ) := rfl

lemma getD_map_num (l : List ℚ) (i : ℕ) (hi : i < l.length) :
    (l.map JSNum.num).getD i JSNum.undef = JSNum.num (l.getD i 0) := by
  rw [List.getD_eq_getElem?_getD, List.getD_eq_getElem?_getD, List.getElem?_map,
    List.getElem?_eq_getElem hi]
  rfl

lemma getD_map_num_oob (l : List ℚ) (i : ℕ) (hi : l.length ≤ i) :
    (l.map JSNum.num).getD i JSNum.undef = JSNum.undef := by
  rw [List.getD_eq_getElem?_getD, List.getElem?_eq_none (by simpa using hi)]
  rfl

lemma jsSetList_length {α : Type} (fill : α) (l : List α) (i : ℕ) (v : α)
    (h : i < l.length) : (jsSetList fill l i v).length = l.length := by
  simp [jsSetList, h]

lemma jsSetList_getD_self {α : Type} (fill d : α) (l : List α) (i : ℕ) (v : α)
    (h : i < l.length) : (jsSetList fill l i v).getD i d = v := by
  unfold jsSetList
  rw [if_pos h, List.getD_eq_getElem?_getD, List.getElem?_set_self (by simpa using h)]
  rfl

lemma jsSetList_getD_ne {α : Type} (fill d : α) (l : List α) (i k : ℕ) (v : α)
    (h : i < l.length) (hne : k ≠ i) : (jsSetList fill l i v).getD k d = l.getD k d := by
  unfold jsSetList
  rw [if_pos h, List.getD_eq_getElem?_getD, List.getD_eq_getElem?_getD,
    List.getElem?_set_ne (Ne.symm hne)]

lemma normalizeLoopN_succ (g : ℕ → JSNum → JSNum) (n : ℕ) (t : List JSNum) :
    normalizeLoopN g (n + 1) t =
      jsSetList .undef (normalizeLoopN g n t) n
        (g n ((normalizeLoopN g n t).getD n .undef)) := by
  unfold normalizeLoopN
  rw [List.range_succ, List.foldl_append, List.foldl_cons, List.foldl_nil]

lemma normalizeLoopN_spec (g : ℕ → JSNum → JSNum) :
    ∀ (n : ℕ) (t : List JSNum), n ≤ t.length →
      (normalizeLoopN g n t).length = t.length ∧
      ∀ k : ℕ, (normalizeLoopN g n t).getD k .undef =
        if k < n then g k (t.getD k .undef) else t.getD k .undef := by
  intro n
  induction n with
  | zero =>
      intro t ht
      exact ⟨rfl, fun k => by simp [normalizeLoopN]⟩
  | succ n ih =>
      intro t ht
      obtain ⟨hlen, hget⟩ := ih t (by omega)
      have hn : n < (normalizeLoopN g n t).length := by rw [hlen]; omega
      rw [normalizeLoopN_succ]
      constructor
      · rw [jsSetList_length _ _ _ _ hn, hlen]
      · intro k
        by_cases hk : k = n
        · subst hk
          rw [jsSetList_getD_self _ _ _ _ _ hn, hget k, if_neg (by omega), if_pos (by omega)]
        · rw [jsSetList_getD_ne _ _ _ _ _ _ hn hk, hget k]
          by_cases hkn : k < n
          · rw [if_pos hkn, if_pos (by omega)]
          · rw [if_neg hkn, if_neg (by omega)]

lemma normalizeLoop_length (g : ℕ → JSNum → JSNum) (t : List JSNum) :
    (normalizeLoop g t).length = t.length :=
  (normalizeLoopN_spec g t.length t (le_refl _)).1

lemma normalizeLoop_getD (g : ℕ → JSNum → JSNum) (t : List JSNum) (k : ℕ)
    (hk : k < t.length) :
    (normalizeLoop g t).getD k .undef = g k (t.getD k .undef) := by
  have h := (normalizeLoopN_spec g t.length t (le_refl _)).2 k
  rw [show normalizeLoop g t = normalizeLoopN g t.length t from rfl, h, if_pos hk]

lemma foldl_invariant {α β : Type _} (P : α → Prop) (f : α → β → α) :
    ∀ (l : List β), (∀ a b, b ∈ l → P a → P (f a b)) → ∀ a, P a → P (l.foldl f a) := by
  intro l
  induction l with
  | nil => intro _ a ha; exact ha
  | cons y t ih =>
      intro hf a ha
      exact ih (fun a' b hb => hf a' b (List.mem_cons_of_mem y hb)) (f a y)
        (hf a y (List.mem_cons_self y t) ha)

lemma sumValues_length (totals lv : List JSNum) (paths : List (Option String))
    (cp : Option String) (ht : lv.length ≤ totals.length) (hp : lv.length ≤ paths.length) :
    (sumValues totals lv paths cp).1.length = totals.length ∧
    (sumValues totals lv paths cp).2.length = paths.length := by
  unfold sumValues
  refine foldl_invariant
    (fun st => st.1.length = totals.length ∧ st.2.length = paths.length) _
    (List.range lv.length) ?_ (totals, paths) ⟨rfl, rfl⟩
  intro st i hi hst
  have hilt : i < lv.length := List.mem_range.mp hi
  split_ifs with htr
  · have h1 : i < st.1.length := by rw [hst.1]; omega
    have h2 : i < st.2.length := by rw [hst.2]; omega
    exact ⟨by rw [jsSetList_length _ _ _ _ h1, hst.1],
      by rw [jsSetList_length _ _ _ _ h2, hst.2]⟩
  · exact hst

lemma normalizeTotals_length (t : List JSNum) (mv xv : Option (List JSNum)) :
    (normalizeTotals t mv xv).length = t.length := by
  unfold normalizeTotals
  cases xv with
  | some m => exact normalizeLoop_length _ _
  | none =>
      show (if (jsMaxList t).gt (JSNum.num 100) = true
          then normalizeLoop (scaleNormalize (jsMaxList t)) t else t).length = t.length
      split_ifs with h
      · exact normalizeLoop_length _ _
      · rfl

lemma foldl_jsMax_num (t : List ℚ) :
    ∀ a : ℚ, (t.map JSNum.num).foldl JSNum.max (JSNum.num a) =
      JSNum.num (t.foldl Max.max a) := by
  induction t with
  | nil => intro a; rfl
  | cons b t ih => intro a; simpa using ih (Max.max a b)

lemma jsMaxList_map_num (a : ℚ) (t : List ℚ) :
    jsMaxList ((a :: t).map JSNum.num) = JSNum.num (t.foldl Max.max a) := by
  unfold jsMaxList
  rw [List.map_cons, List.foldl_cons, JSNum.max_negInf_num, foldl_jsMax_num]

lemma foldl_max_ge (t : List ℚ) :
    ∀ a : ℚ, a ≤ t.foldl Max.max a ∧ ∀ x ∈ t, x ≤ t.foldl Max.max a := by
  induction t with
  | nil => intro a; exact ⟨le_refl a, by simp⟩
  | cons b t ih =>
      intro a
      obtain ⟨h1, h2⟩ := ih (Max.max a b)
      rw [List.foldl_cons]
      refine ⟨le_trans (le_max_left a b) h1, ?_⟩
      intro x hx
      rcases List.mem_cons.mp hx with h | h
      · rw [h]
        exact le_trans (le_max_right a b) h1
      · exact h2 x h

lemma foldl_max_le (t : List ℚ) :
    ∀ a c : ℚ, a ≤ c → (∀ x ∈ t, x ≤ c) → t.foldl Max.max a ≤ c := by
  induction t with
  | nil => intro a c ha _; simpa using ha
  | cons b t ih =>
      intro a c ha hx
      rw [List.foldl_cons]
      exact ih (Max.max a b) c (max_le ha (hx b (List.mem_cons_self b t)))
        (fun x h => hx x (List.mem_cons_of_mem b h))

lemma round_mono_q (x y : ℚ) (h : x ≤ y) : (round x : ℤ) ≤ round y := by
  rw [round_eq, round_eq]
  exact Int.floor_mono (by linarith)

/-! ### The normalization claims -/

lemma boundsNormalize_num (maxVs : List ℚ) (minVs : Option (List ℚ)) (i : ℕ)
    (him : i < maxVs.length) (x : ℚ) :
    boundsNormalize (minVs.map (fun l => l.map JSNum.num)) (maxVs.map JSNum.num) i
        (JSNum.num x) =
      jsRound (((JSNum.num x).sub (JSNum.num ((minVs.getD []).getD i 0))).mul
        (JSNum.num 100) |>.div ((JSNum.num (maxVs.getD i 0)).sub
          (JSNum.num ((minVs.getD []).getD i 0)))) := by
  unfold boundsNormalize
  rw [getD_map_num maxVs i him]
  cases minVs with
  | none => simp
  | some m =>
      dsimp only [Option.map, Option.getD]
      by_cases him2 : i < m.length
      · rw [getD_map_num m i him2, JSNum.truthy_num]
        by_cases hz : m.getD i 0 = 0
        · rw [if_pos hz, hz]
          simp
        · rw [if_neg hz]
          simp
      · rw [getD_map_num_oob m i (by omega), JSNum.truthy_undef,
          List.getD_eq_default m 0 (by omega : m.length ≤ i)]
        simp

/-- Claim C2: with explicit max bounds, the normalized value at index `i` is
`round((totals[i] − min_i) * 100 / (max[i] − min_i))` where `min_i` is
`bounds.min[i]` when present and non-zero and `0` otherwise, with no clamping;
and when `max[i] = min_i` the division is unguarded, so the entry becomes a
non-finite value (`NaN`/`±Infinity`) rather than an error. -/
theorem normalizeTotals_bounds (totals maxVs : List ℚ) (minVs : Option (List ℚ)) (i : ℕ)
    (hi : i < totals.length) (him : i < maxVs.length) :
    (maxVs.getD i 0 ≠ (minVs.getD []).getD i 0 →
      (normalizeTotals (totals.map JSNum.num)
          (minVs.map (fun l => l.map JSNum.num)) (some (maxVs.map JSNum.num))).getD i
            JSNum.undef =
        JSNum.num ((round ((totals.getD i 0 - (minVs.getD []).getD i 0) * 100 /
            (maxVs.getD i 0 - (minVs.getD []).getD i 0)) : ℤ) : ℚ)) ∧
    (maxVs.getD i 0 = (minVs.getD []).getD i 0 →
      ((normalizeTotals (totals.map JSNum.num)
          (minVs.map (fun l => l.map JSNum.num)) (some (maxVs.map JSNum.num))).getD i
            JSNum.undef).isFinite = false) := by
  have hloop : (normalizeTotals (totals.map JSNum.num)
      (minVs.map (fun l => l.map JSNum.num)) (some (maxVs.map JSNum.num))).getD i
        JSNum.undef =
      boundsNormalize (minVs.map (fun l => l.map JSNum.num)) (maxVs.map JSNum.num) i
        ((totals.map JSNum.num).getD i JSNum.undef) := by
    unfold normalizeTotals
    exact normalizeLoop_getD _ _ i (by simpa using hi)
  rw [hloop, getD_map_num totals i hi, boundsNormalize_num maxVs minVs i him]
  constructor
  · intro hne
    rw [JSNum.sub_num, JSNum.mul_num, JSNum.sub_num,
      JSNum.div_num _ _ (sub_ne_zero.mpr hne), jsRound_num]
  · intro heq
    rw [JSNum.sub_num, JSNum.mul_num, JSNum.sub_num, heq, sub_self, JSNum.div_num_zero]
    split_ifs <;> rfl

/-- Witness for C2 at `totals = [50]`, `max = [200]`, `min = [100]`, `i = 0`. -/
theorem normalizeTotals_bounds_witness :
    ((200 : ℚ) ≠ ((some [(100 : ℚ)]).getD []).getD 0 0 →
      (normalizeTotals ([(50 : ℚ)].map JSNum.num)
          ((some [(100 : ℚ)]).map (fun l => l.map JSNum.num))
          (some ([(200 : ℚ)].map JSNum.num))).getD 0 JSNum.undef =
        JSNum.num ((round ((([(50 : ℚ)].getD 0 0) - ((some [(100 : ℚ)]).getD []).getD 0 0) * 100 /
            (([(200 : ℚ)].getD 0 0) - ((some [(100 : ℚ)]).getD []).getD 0 0)) : ℤ) : ℚ)) ∧
    ((200 : ℚ) = ((some [(100 : ℚ)]).getD []).getD 0 0 →
      ((normalizeTotals ([(50 : ℚ)].map JSNum.num)
          ((some [(100 : ℚ)]).map (fun l => l.map JSNum.num))
          (some ([(200 : ℚ)].map JSNum.num))).getD 0 JSNum.undef).isFinite = false) := by
  have h := normalizeTotals_bounds [(50 : ℚ)] [(200 : ℚ)] (some [(100 : ℚ)]) 0
    (by norm_num) (by norm_num)
  simpa using h

/-- Claim C4: with no bounds and every total `≤ 100`, the normalization is the
identity: the output values equal the input totals element for element. -/
theorem normalizeTotals_identity (l : List ℚ) (hle : ∀ x ∈ l, x ≤ 100) :
    normalizeTotals (l.map JSNum.num) none none = l.map JSNum.num := by
  unfold normalizeTotals
  cases l with
  | nil => rfl
  | cons a t =>
      dsimp only
      rw [jsMaxList_map_num, JSNum.gt_num]
      have hpeak : t.foldl Max.max a ≤ 100 :=
        foldl_max_le t a 100 (hle a (List.mem_cons_self a t))
          (fun x hx => hle x (List.mem_cons_of_mem a hx))
      rw [decide_eq_false (not_lt.mpr hpeak)]
      simp

/-- Witness for C4 at `totals = [10, 50, 90]` (the spec's §8 scenario). -/
theorem normalizeTotals_identity_witness :
    normalizeTotals ([(10 : ℚ), 50, 90].map JSNum.num) none none =
      [(10 : ℚ), 50, 90].map JSNum.num :=
  normalizeTotals_identity [(10 : ℚ), 50, 90] (by
    intro x hx
    simp only [List.mem_cons, List.not_mem_nil, or_false] at hx
    rcases hx with h | h | h <;> (subst h; norm_num))

/-! ### Count determination and array lengths -/

/-- Claim C8: `count` is `max` of both lengths when labels and totals both
exist, the one length when only one exists, and stays undefined (`none`) when
neither does — in which case the converter still returns (zero items, empty
values), rather than throwing. -/
theorem computeCount_spec (l : List String) (t : List JSNum) :
    computeCount (some l) (some t) = some (Max.max l.length t.length) ∧
    computeCount (some l) none = some l.length ∧
    computeCount none (some t) = some t.length ∧
    computeCount none none = none ∧
    (converter { categories := none, valuesBlock := none }).count = none ∧
    (converter { categories := none, valuesBlock := none }).values = [] :=
  ⟨rfl, rfl, rfl, rfl, rfl, rfl⟩

/-- Witness for C8 at `labels = ["A"]`, `totals = [1]`. -/
theorem computeCount_spec_witness :
    computeCount (some ["A"]) (some [JSNum.num 1]) =
      some (Max.max (["A"] : List String).length ([JSNum.num 1] : List JSNum).length) ∧
    computeCount (some ["A"]) none = some (["A"] : List String).length ∧
    computeCount none (some [JSNum.num 1]) = some ([JSNum.num 1] : List JSNum).length ∧
    computeCount none none = none ∧
    (converter { categories := none, valuesBlock := none }).count = none ∧
    (converter { categories := none, valuesBlock := none }).values = [] :=
  computeCount_spec ["A"] [JSNum.num 1]

/-- Claim C5 fails as stated: with category labels `["A", "B"]` and a single
value series `[1, 2, 3]`, the defined `count` is `3` but the labels array in
the result keeps its length `2`. -/
theorem viewModel_length_mismatch :
    (converter (singleSeriesInput ["A", "B"] [0, 1] "e" [1, 2, 3])).count = some 3 ∧
    ((converter (singleSeriesInput ["A", "B"] [0, 1] "e" [1, 2, 3])).labelsArray.getD
      []).length = 2 ∧
    ((converter (singleSeriesInput ["A", "B"] [0, 1] "e" [1, 2, 3])).labelsArray.getD
      []).length ≠ 3 := by
  have hs := sumValues_length [JSNum.num 0, JSNum.num 0, JSNum.num 0]
    [JSNum.num 1, JSNum.num 2, JSNum.num 3] [none, none, none] (sanitizePathD "e")
    (by simp) (by simp)
  simp only [List.length_cons, List.length_nil] at hs
  refine ⟨?_, by simp [converter, singleSeriesInput], by simp [converter, singleSeriesInput]⟩
  simp only [converter, singleSeriesInput, List.foldl_cons, List.foldl_nil, processColumn,
    computeCount]
  simp [hs.1]

/-- Claim C5 (amended): labels and identities keep the category column's
length, values and paths the value series' length, and `count` is the max of
the two; hence when the category column and the value series have equal length
(index-aligned input), every output array has length exactly `count`. -/
theorem viewModel_lengths (labels : List String) (ids : List ℕ) (g : String) (vs : List ℚ)
    (hid : ids.length = labels.length) (hlen : vs.length = labels.length) :
    (converter (singleSeriesInput labels ids g vs)).count = some labels.length ∧
    ((converter (singleSeriesInput labels ids g vs)).labelsArray.getD []).length =
      labels.length ∧
    ((converter (singleSeriesInput labels ids g vs)).identities.getD []).length =
      labels.length ∧
    (converter (singleSeriesInput labels ids g vs)).values.length = labels.length ∧
    ((converter (singleSeriesInput labels ids g vs)).paths.getD []).length =
      labels.length := by
  have hs := sumValues_length (List.replicate labels.length (JSNum.num 0))
    (vs.map JSNum.num) (List.replicate labels.length none) (sanitizePathD g)
    (by simp [hlen]) (by simp [hlen])
  simp only [List.length_replicate] at hs
  simp only [converter, singleSeriesInput, List.foldl_cons, List.foldl_nil, processColumn,
    computeCount]
  refine ⟨?_, by simp, by simp [hid], ?_, ?_⟩
  · simp [hlen, hs.1]
  · simp [hlen, normalizeTotals_length, hs.1]
  · simp [hlen, hs.2]

/-- Witness for C5's amended claim at labels `["A", "B"]`, ids `[0, 1]`,
series `[40, 70]`. -/
theorem viewModel_lengths_witness :
    (converter (singleSeriesInput ["A", "B"] [0, 1] "e" [40, 70])).count =
      some (["A", "B"] : List String).length ∧
    ((converter (singleSeriesInput ["A", "B"] [0, 1] "e" [40, 70])).labelsArray.getD
      []).length = (["A", "B"] : List String).length ∧
    ((converter (singleSeriesInput ["A", "B"] [0, 1] "e" [40, 70])).identities.getD
      []).length = (["A", "B"] : List String).length ∧
    (converter (singleSeriesInput ["A", "B"] [0, 1] "e" [40, 70])).values.length =
      (["A", "B"] : List String).length ∧
    ((converter (singleSeriesInput ["A", "B"] [0, 1] "e" [40, 70])).paths.getD
      []).length = (["A", "B"] : List String).length :=
  viewModel_lengths ["A", "B"] [0, 1] "e" [40, 70] (by simp) (by simp)

/-! ### The rescale branch (claim C3) -/

lemma normalizeTotals_rescale_branch (a : ℚ) (t : List ℚ)
    (hpeak : 100 < t.foldl Max.max a) :
    normalizeTotals ((a :: t).map JSNum.num) none none =
      normalizeLoop (scaleNormalize (JSNum.num (t.foldl Max.max a)))
        ((a :: t).map JSNum.num) := by
  unfold normalizeTotals
  show (if (jsMaxList ((a :: t).map JSNum.num)).gt (JSNum.num 100) = true
      then normalizeLoop (scaleNormalize (jsMaxList ((a :: t).map JSNum.num)))
        ((a :: t).map JSNum.num)
      else (a :: t).map JSNum.num) = _
  rw [jsMaxList_map_num, JSNum.gt_num, decide_eq_true hpeak, if_pos rfl]

/-- Claim C3: with no bounds and a peak strictly above 100, the aggregator
replaces every entry with `round(totals[i] * 100 / peak)` and every result is
`≤ 100`; concretely, categories `["A", "B", "C"]` with the single value series
`[100, 500, 900]` and no bounds yield values `[11, 56, 100]`. -/
theorem normalizeTotals_rescale (a : ℚ) (t : List ℚ)
    (hpeak : 100 < t.foldl Max.max a) :
    (normalizeTotals ((a :: t).map JSNum.num) none none).length = (a :: t).length ∧
    (∀ i : ℕ, i < (a :: t).length →
      (normalizeTotals ((a :: t).map JSNum.num) none none).getD i JSNum.undef =
        JSNum.num ((round ((a :: t).getD i 0 * 100 / t.foldl Max.max a) : ℤ) : ℚ)) ∧
    (∀ x ∈ a :: t, (round (x * 100 / t.foldl Max.max a) : ℤ) ≤ 100) ∧
    (converter (singleSeriesInput ["A", "B", "C"] [0, 1, 2] "e" [100, 500, 900])).values =
      [JSNum.num 11, JSNum.num 56, JSNum.num 100] := by
  have hpos : (0 : ℚ) < t.foldl Max.max a := lt_trans (by norm_num) hpeak
  refine ⟨?_, ?_, ?_, ?_⟩
  · rw [normalizeTotals_rescale_branch a t hpeak]
    simpa using normalizeLoop_length _ ((a :: t).map JSNum.num)
  · intro i hi
    rw [normalizeTotals_rescale_branch a t hpeak,
      normalizeLoop_getD _ _ i (by simpa using hi), getD_map_num _ i hi]
    unfold scaleNormalize
    rw [JSNum.mul_num, JSNum.div_num _ _ (ne_of_gt hpos), jsRound_num]
  · intro x hx
    have hxle : x ≤ t.foldl Max.max a := by
      rcases List.mem_cons.mp hx with h | h
      · rw [h]
        exact (foldl_max_ge t a).1
      · exact (foldl_max_ge t a).2 x h
    have hq : x * 100 / t.foldl Max.max a ≤ 100 := by
      rw [div_le_iff₀ hpos]
      nlinarith
    have h100 : (round (100 : ℚ) : ℤ) = 100 := by norm_num
    calc (round (x * 100 / t.foldl Max.max a) : ℤ) ≤ round (100 : ℚ) :=
          round_mono_q _ _ hq
      _ = 100 := h100
  · have hsum : sumValues [JSNum.num 0, JSNum.num 0, JSNum.num 0]
        [JSNum.num 100, JSNum.num 500, JSNum.num 900] [none, none, none]
        (some "e") =
        ([JSNum.num 100, JSNum.num 500, JSNum.num 900],
         [some "e", some "e", some "e"]) := by
      have hr : List.range 3 = [0, 1, 2] := rfl
      unfold sumValues
      norm_num [hr, jsSetList, JSNum.add, JSNum.toNumeric]
    have hsan : sanitizePathD "e" = some "e" := rfl
    have hmax : jsMaxList [JSNum.num 100, JSNum.num 500, JSNum.num 900] =
        JSNum.num 900 := by
      norm_num [jsMaxList, max_def]
    have hnorm : normalizeTotals [JSNum.num 100, JSNum.num 500, JSNum.num 900] none none =
        [JSNum.num 11, JSNum.num 56, JSNum.num 100] := by
      unfold normalizeTotals
      show (if (jsMaxList [JSNum.num 100, JSNum.num 500, JSNum.num 900]).gt
            (JSNum.num 100) = true
          then normalizeLoop
            (scaleNormalize (jsMaxList [JSNum.num 100, JSNum.num 500, JSNum.num 900]))
            [JSNum.num 100, JSNum.num 500, JSNum.num 900]
          else [JSNum.num 100, JSNum.num 500, JSNum.num 900]) = _
      rw [hmax, JSNum.gt_num, decide_eq_true (by norm_num : (100 : ℚ) < 900), if_pos rfl]
      have hr : List.range 3 = [0, 1, 2] := rfl
      unfold normalizeLoop scaleNormalize
      norm_num [hr, jsSetList, JSNum.mul, JSNum.div, JSNum.toNumeric, round_eq]
    have hrep0 : List.replicate 3 (JSNum.num 0) = [JSNum.num 0, JSNum.num 0, JSNum.num 0] := rfl
    have hrepn : List.replicate 3 (none : Option String) = [none, none, none] := rfl
    simp only [converter, singleSeriesInput, List.foldl_cons, List.foldl_nil, processColumn,
      List.map_cons, List.map_nil, hsan]
    norm_num [hrep0, hrepn, hsum, hnorm]

/-- Witness for C3 at `totals = [900, 100, 500]` (head `900`, tail `[100, 500]`,
peak `900 > 100`). -/
theorem normalizeTotals_rescale_witness :
    (normalizeTotals (((900 : ℚ) :: [100, 500]).map JSNum.num) none none).length =
      ((900 : ℚ) :: [100, 500]).length ∧
    (∀ i : ℕ, i < ((900 : ℚ) :: [100, 500]).length →
      (normalizeTotals (((900 : ℚ) :: [100, 500]).map JSNum.num) none none).getD i
          JSNum.undef =
        JSNum.num ((round (((900 : ℚ) :: [100, 500]).getD i 0 * 100 /
          ([(100 : ℚ), 500].foldl Max.max 900)) : ℤ) : ℚ)) ∧
    (∀ x ∈ (900 : ℚ) :: [100, 500],
      (round (x * 100 / ([(100 : ℚ), 500].foldl Max.max 900)) : ℤ) ≤ 100) ∧
    (converter (singleSeriesInput ["A", "B", "C"] [0, 1, 2] "e" [100, 500, 900])).values =
      [JSNum.num 11, JSNum.num 56, JSNum.num 100] :=
  normalizeTotals_rescale 900 [100, 500] (by
    norm_num [List.foldl_cons, List.foldl_nil, max_def])

end WaffleChart
